import Mathlib

/-!
Verification development for the json-to-multicsv core
(`src/json_to_multicsv/parser.py` and `src/json_to_multicsv/converter.py`).

The embedding is shallow: Python functions become Lean functions, the
mutable converter state (the table store and the mutable row dicts that
are appended to tables and mutated afterwards) becomes an explicit
`ConvState` in which rows are identified by their index into a row
store.  Python `dict` insertion semantics (insertion order preserved,
assignment to an existing key keeps its position) are modelled by
`pyDictInsert`.  Checked Python exceptions (`PathSpecError`,
`ConvertError`) are modelled as `Except` error values; unchecked
failures the Python code can hit (e.g. `field in row` when `row` is
`None`, `'.'.join` over a tuple containing `None`) are modelled by the
distinguished `WalkErr.pyTypeError` constructor.
-/

namespace JsonToMulticsv

set_option synthInstance.maxSize 1024

/-- Single-quote character, used when rendering Python `repr`-style quotes
in diagnostic messages. -/
def sq : String := String.singleton (Char.ofNat 39)

/-- JSON scalar values (everything that is not a dict or a list in the
decoded Python tree). -/
inductive Scalar
  | null
  | bool (b : Bool)
  | num (n : Int)
  | str (s : String)
deriving DecidableEq, Repr

/-- A decoded JSON document: scalars, objects (ordered key/value entry
lists, as Python dicts preserve insertion order) and arrays. -/
inductive JVal
  | scalar (s : Scalar)
  | obj (entries : List (String × JVal))
  | arr (elems : List JVal)

mutual

/-- Size of a document tree (used as an induction measure). -/
def jsize : JVal → Nat
  | .scalar _ => 1
  | .obj es => 1 + esize es
  | .arr l => 1 + lsize l

def esize : List (String × JVal) → Nat
  | [] => 0
  | (_, v) :: rest => jsize v + esize rest

def lsize : List JVal → Nat
  | [] => 0
  | v :: rest => jsize v + lsize rest

end

theorem jsize_pos (v : JVal) : 1 ≤ jsize v := by
  cases v <;> simp [jsize]

/-- `PathSpecError` from parser.py: the only checked parser failure.
It carries the rendered diagnostic message. -/
structure PathSpecError where
  msg : String
deriving DecidableEq, Repr

/-- `Handler` dataclass from parser.py.  `kind` is a plain string, as in
the source; `name`/`key_name` are optional exactly as in the dataclass. -/
structure Handler where
  kind : String
  components : List String
  name : Option String := none
  key_name : Option String := none
  fallback : Bool := false
deriving DecidableEq, Repr

deriving instance DecidableEq for Except

/-- `Handler.matches`: true iff the path has the same length as
`components` and each component is `*` or equal to the path segment. -/
def Handler.matches (h : Handler) (path : List String) : Bool :=
  decide (h.components.length = path.length) &&
    (h.components.zip path).all fun cp => decide (cp.1 = "*") || decide (cp.1 = cp.2)

/-- `_VALID_KINDS` from parser.py. -/
def VALID_KINDS : List String := ["table", "column", "row", "ignore"]

/-- `_Lexer.peek`: the character at `pos`, or `none` past the end. -/
def peek (spec : List Char) (pos : Nat) : Option Char := spec[pos]?

/-- Python `repr` of a one-character string (quote rendering only). -/
def charRepr (c : Char) : String := sq ++ String.singleton c ++ sq

/-- The `repr(got) if got is not None else "end of string"` rendering used
by the lexer diagnostics. -/
def gotDesc (c : Option Char) : String :=
  match c with
  | some ch => charRepr ch
  | none => "end of string"

/-- `_Lexer.error`: the diagnostic layout — the spec text, a caret line
pointing at `pos`, and the message. -/
def caretMsg (spec : List Char) (pos : Nat) (message : String) : String :=
  "  " ++ String.mk spec ++ "\n  " ++ String.mk (List.replicate pos ' ') ++ "^\n" ++ message

/-- `_Lexer.expect_char`. -/
def expect_char (spec : List Char) (pos : Nat) (ch : Char) : Except PathSpecError Nat :=
  if peek spec pos = some ch then .ok (pos + 1)
  else .error ⟨caretMsg spec pos
    ("Expected " ++ charRepr ch ++ ", got " ++ gotDesc (peek spec pos))⟩

/-- The run of characters excluding `/` and `:` starting at `pos`
(the text consumed by `_Lexer.read_text`). -/
def text_run (spec : List Char) (pos : Nat) : List Char :=
  (spec.drop pos).takeWhile fun c => !(decide (c = '/') || decide (c = ':'))

/-- `_Lexer.read_text`: the maximal nonempty run of characters excluding
`/` and `:` starting at `pos`; empty runs are an error. -/
def read_text (spec : List Char) (pos : Nat) : Except PathSpecError (String × Nat) :=
  if (text_run spec pos).isEmpty then
    .error ⟨caretMsg spec pos ("Expected text, got " ++ gotDesc (peek spec pos))⟩
  else .ok (String.mk (text_run spec pos), pos + (text_run spec pos).length)

/-- The segments `while` loop of `parse_path_spec` (parser.py lines 75-84).
The loop consumes at least one character per iteration, so it terminates;
that is made explicit by the `fuel` argument (structural recursion), and
`parse_segments_isSome` below shows `spec.length + 1` fuel always
suffices, so the `none` result is unreachable from `parse_path_spec`. -/
def parse_segments (spec : List Char) :
    Nat → Nat → List String → Option (Except PathSpecError (List String × Nat))
  | 0, _, _ => none
  | fuel + 1, pos, acc =>
    if peek spec pos = some ':' ∨ peek spec pos = none then some (.ok (acc, pos))
    else
      match read_text spec pos with
      | .error e => some (.error e)
      | .ok (t, pos1) =>
        if peek spec pos1 = some '/' then
          -- expect_char('/') always succeeds here since peek = '/'
          if peek spec (pos1 + 1) = some ':' ∨ peek spec (pos1 + 1) = none then
            some (.error ⟨caretMsg spec (pos1 + 1)
              ("Expected text, got " ++ gotDesc (peek spec (pos1 + 1)))⟩)
          else parse_segments spec fuel (pos1 + 1) (acc ++ [t])
        else parse_segments spec fuel pos1 (acc ++ [t])

/-- `at_end` check of the lexer: `pos >= len(spec)`. -/
def at_end (spec : List Char) (pos : Nat) : Bool := decide (spec.length ≤ pos)

/-- The common final section of `parse_path_spec` (lines 110-113): raise
`Unexpected content` when not at the end, else build the Handler. -/
def finish_parse (spec : List Char) (pos : Nat) (kind : String)
    (components : List String) (name key_name : Option String) :
    Except PathSpecError Handler :=
  if at_end spec pos then
    .ok { kind := kind, components := components, name := name, key_name := key_name,
          fallback := false }
  else .error ⟨caretMsg spec pos "Unexpected content"⟩

/-- Body of `parse_path_spec`, working on the character list of the spec. -/
def parse_path_spec_core (spec : List Char) : Except PathSpecError Handler :=
  match expect_char spec 0 '/' with
  | .error e => .error e
  | .ok p1 =>
    match parse_segments spec (spec.length + 1) p1 [] with
    | none => .error ⟨"unreachable: segment loop fuel exhausted"⟩
    | some (.error e) => .error e
    | some (.ok (components, p2)) =>
      match expect_char spec p2 ':' with
      | .error e => .error e
      | .ok p3 =>
        match read_text spec p3 with
        | .error e => .error e
        | .ok (kind, p4) =>
          if kind ∈ VALID_KINDS then
            if kind = "table" then
              match expect_char spec p4 ':' with
              | .error e => .error e
              | .ok p5 =>
                match read_text spec p5 with
                | .error e => .error e
                | .ok (name, p6) =>
                  if peek spec p6 = some ':' then
                    -- expect_char(':') succeeds since peek = ':'
                    match read_text spec (p6 + 1) with
                    | .error e => .error e
                    | .ok (key, p8) =>
                      finish_parse spec p8 kind components (some name) (some key)
                  else finish_parse spec p6 kind components (some name) none
            else if at_end spec p4 then
              finish_parse spec p4 kind components none none
            else
              .error ⟨caretMsg spec p4
                (sq ++ kind ++ sq ++ " handler does not take extra arguments")⟩
          else
            -- back up to point at the start of the bad kind
            .error ⟨caretMsg spec (p4 - kind.length)
              ("Unknown handler kind " ++ sq ++ kind ++ sq ++
               ", expected one of: column, ignore, row, table")⟩

/-- `parse_path_spec` from parser.py: parse one `--path` value into a
Handler, or fail with a `PathSpecError`. -/
def parse_path_spec (s : String) : Except PathSpecError Handler :=
  parse_path_spec_core s.data

/-- `build_handlers` from parser.py: parse each spec and append, after each
parsed handler, its auto-generated fallback column handler with an extra
`*` component. -/
def build_handlers : List String → Except PathSpecError (List Handler)
  | [] => .ok []
  | s :: rest =>
    match parse_path_spec s with
    | .error e => .error e
    | .ok h =>
      match build_handlers rest with
      | .error e => .error e
      | .ok hs =>
        .ok (h :: { kind := "column", components := h.components ++ ["*"],
                    name := none, key_name := none, fallback := true } :: hs)

/-- A Handler is well-formed when its kind is one of the four valid kinds,
its `name` is present exactly when the kind is `table`, and it is not a
fallback. -/
def WellFormedHandler (h : Handler) : Prop :=
  h.kind ∈ VALID_KINDS ∧ (h.name.isSome ↔ h.kind = "table") ∧ h.fallback = false

/-- The property C1 asserts of every parse result: a returned Handler is
well-formed; an error is (by construction of the model) the
`PathSpecError` kind. -/
def ParseTotal : Except PathSpecError Handler → Prop
  | .ok h => WellFormedHandler h
  | .error _ => True

theorem text_run_le (spec : List Char) (pos : Nat) :
    (text_run spec pos).length ≤ spec.length - pos := by
  have h1 : (text_run spec pos).length ≤ (spec.drop pos).length :=
    (List.takeWhile_prefix _).length_le
  simpa using h1

theorem read_text_lt {spec : List Char} {pos : Nat} {t : String} {p' : Nat}
    (h : read_text spec pos = .ok (t, p')) : pos < p' ∧ p' ≤ spec.length := by
  unfold read_text at h
  split at h
  · exact absurd h (by simp)
  · rename_i hne
    simp only [Except.ok.injEq, Prod.mk.injEq] at h
    obtain ⟨-, hp⟩ := h
    subst hp
    have h0 : (text_run spec pos).length ≠ 0 := by
      intro h0
      exact hne (List.isEmpty_iff_length_eq_zero.mpr h0)
    have h1 := text_run_le spec pos
    omega

theorem parse_segments_isSome (spec : List Char) :
    ∀ (fuel pos : Nat) (acc : List String), spec.length + 1 - pos < fuel →
      (parse_segments spec fuel pos acc).isSome := by
  intro fuel
  induction fuel with
  | zero => intro pos acc h; omega
  | succ n ih =>
    intro pos acc h
    unfold parse_segments
    split
    · simp
    · split
      · simp
      · rename_i t pos1 heq
        have hb := read_text_lt heq
        split
        · split
          · simp
          · exact ih (pos1 + 1) (acc ++ [t]) (by omega)
        · exact ih pos1 (acc ++ [t]) (by omega)

theorem parse_core_total : ∀ spec : List Char, ParseTotal (parse_path_spec_core spec) := by
  intro spec
  unfold parse_path_spec_core finish_parse
  repeat' split
  all_goals simp_all [ParseTotal, WellFormedHandler, VALID_KINDS]

/-- C1: for every input string, `parse_path_spec` either returns a
well-formed Handler (kind in the closed four-element set, `name` present
iff the kind is `table`, `fallback = false`) or fails with the
`PathSpecError` specification-error kind — the model is a total function
into exactly these two outcomes, so no other failure is possible. -/
theorem parse_path_spec_total : ∀ s : String, ParseTotal (parse_path_spec s) :=
  fun s => parse_core_total s.data

/-! ## The converter (converter.py) -/

/-- Python dict assignment `d[k] = v` on an insertion-ordered association
list: an existing key keeps its position and gets the new value, a new key
is appended at the end. -/
def pyDictInsert {α β : Type} [DecidableEq α] (d : List (α × β)) (k : α) (v : β) :
    List (α × β) :=
  if k ∈ d.map Prod.fst then d.map fun e => if e.1 = k then (e.1, v) else e
  else d ++ [(k, v)]

/-- Python `dict(pairs)`: fold the pairs by dict assignment (first
occurrence fixes the position, the last value wins). -/
def pyDict {α β : Type} [DecidableEq α] (items : List (α × β)) : List (α × β) :=
  items.foldl (fun d e => pyDictInsert d e.1 e.2) []

/-- Code-point comparison of character lists — Python string `<=`
(lexicographic on code points). -/
def charListLe : List Char → List Char → Bool
  | [], _ => true
  | _ :: _, [] => false
  | a :: as, b :: bs =>
    if a.toNat < b.toNat then true
    else if b.toNat < a.toNat then false
    else charListLe as bs

/-- Python string comparison `a <= b`. -/
def strLe (a b : String) : Bool := charListLe a.data b.data

/-- The `sorted(items)` call of `_sorted_dict`, modelled as a stable sort
by key.  (Python sorts the `(key, value)` tuples, which additionally
compares values when two keys are equal — the two agree on every object
without duplicate keys, which is the only case exercised below.) -/
def sorted_entries (es : List (String × JVal)) : List (String × JVal) :=
  List.insertionSort (fun a b => strLe a.1 b.1) es

mutual

/-- The effect of decoding with `json.load(fileobj,
object_pairs_hook=_sorted_dict)` (converter.py lines 18-19 and 35):
every object's entry list is sorted by key and collapsed through `dict`. -/
def decode : JVal → JVal
  | .scalar c => .scalar c
  | .obj es => .obj (pyDict (sorted_entries (decode_entries es)))
  | .arr l => .arr (decode_list l)

def decode_entries : List (String × JVal) → List (String × JVal)
  | [] => []
  | (k, v) :: rest => (k, decode v) :: decode_entries rest

def decode_list : List JVal → List JVal
  | [] => []
  | v :: rest => decode v :: decode_list rest

end

/-- A row: a Python dict from field name to scalar, in insertion order.
Keys are `Option String` because the Python code can use `None`
(`row[field]` with `field = None`) and `handler.name` (optional in the
dataclass) as dict keys. -/
abbrev Row : Type := List (Option String × Scalar)

/-- The converter's mutable state: the row store (rows are mutated after
being appended to a table, so tables hold row indices into `rows`) and
`self.tables`, the insertion-ordered mapping from table identity to its
row list. -/
structure ConvState where
  rows : List Row
  tables : List (List (Option String) × List Nat)
deriving DecidableEq, Repr

/-- `ConvertError` (converter.py): structured as its two raise sites —
the no-handler error (lines 101-103 and 136-137) and the column-name
collision (lines 90-97). -/
inductive ConvertErr
  | noHandler (path : List String) (valType : String)
  | collision (field : Option String) (tableParts : List (Option String))
      (path : List String)
deriving DecidableEq, Repr

/-- A walk outcome error: either a checked `ConvertError` or an unchecked
Python `TypeError` (e.g. `field in row` when `row` is `None`, or
`'.'.join` over a tuple containing `None`). -/
inductive WalkErr
  | conv (e : ConvertErr)
  | pyTypeError (msg : String)
deriving DecidableEq, Repr

/-- `Converter._find_handler`: scan in order; a non-fallback match returns
immediately, a fallback match is remembered (later ones overwrite) and
returned only if no non-fallback handler matches. -/
def find_handler_aux (path : List String) : Option Handler → List Handler → Option Handler
  | fb, [] => fb
  | fb, h :: rest =>
    if h.matches path then
      if h.fallback then find_handler_aux path (some h) rest
      else some h
    else find_handler_aux path fb rest

def find_handler (handlers : List Handler) (path : List String) : Option Handler :=
  find_handler_aux path none handlers

/-- The code-point ranges of the characters Python `str.isdigit` accepts
(those with Numeric_Type=Digit or Numeric_Type=Decimal), extracted from
the CPython 3.11 Unicode database: `chr(c).isdigit()` is true exactly when
`c` falls in one of these ranges. -/
def py_digit_ranges : List (Nat × Nat) :=
  [(48, 57), (178, 179), (185, 185), (1632, 1641), (1776, 1785), (1984, 
   1993), (2406, 2415), (2534, 2543), (2662, 2671), (2790, 2799), (2918, 
   2927), (3046, 3055), (3174, 3183), (3302, 3311), (3430, 3439), (3558, 
   3567), (3664, 3673), (3792, 3801), (3872, 3881), (4160, 4169), (4240, 
   4249), (4969, 4977), (6112, 6121), (6160, 6169), (6470, 6479), (6608, 
   6618), (6784, 6793), (6800, 6809), (6992, 7001), (7088, 7097), (7232, 
   7241), (7248, 7257), (8304, 8304), (8308, 8313), (8320, 8329), (9312, 
   9320), (9332, 9340), (9352, 9360), (9450, 9450), (9461, 9469), (9471, 
   9471), (10102, 10110), (10112, 10120), (10122, 10130), (42528, 42537), 
   (43216, 43225), (43264, 43273), (43472, 43481), (43504, 43513), (43600, 
   43609), (44016, 44025), (65296, 65305), (66720, 66729), (68160, 68163), 
   (68912, 68921), (69216, 69224), (69714, 69722), (69734, 69743), (69872, 
   69881), (69942, 69951), (70096, 70105), (70384, 70393), (70736, 70745), 
   (70864, 70873), (71248, 71257), (71360, 71369), (71472, 71481), (71904, 
   71913), (72016, 72025), (72784, 72793), (73040, 73049), (73120, 73129), 
   (92768, 92777), (92864, 92873), (93008, 93017), (120782, 120831), 
   (123200, 123209), (123632, 123641), (125264, 125273), (127232, 127242), 
   (130032, 130041)]

/-- A single character of a Python digit string. -/
def pyIsDigitChar (c : Char) : Bool :=
  py_digit_ranges.any fun r => decide (r.1 ≤ c.toNat) && decide (c.toNat ≤ r.2)

/-- Python `str.isdigit`: nonempty and every character is a digit —
including Unicode digits such as the Arabic-Indic digits, exactly as in
CPython. -/
def pyIsDigit (s : String) : Bool := !s.data.isEmpty && s.data.all pyIsDigitChar

/-- One iteration of the `_path_to_pathspec` loop (converter.py lines
63-69): a non-fallback table handler whose components form a proper,
matching prefix of the path stars the following position when that
segment is all digits. -/
def star_step (path : List String) (spec : List String) (h : Handler) : List String :=
  if h.kind = "table" ∧ h.fallback = false then
    if h.components.length < path.length ∧ h.matches (path.take h.components.length) then
      if pyIsDigit (spec.getD h.components.length "") then
        spec.set h.components.length "*"
      else spec
    else spec
  else spec

/-- `Converter._path_to_pathspec`: build a pathspec suggestion from a
concrete path. -/
def path_to_pathspec (handlers : List Handler) (path : List String) : String :=
  "/" ++ String.intercalate "/" (handlers.foldl (star_step path) path)

/-- The default ancestor-key column name
`".".join(child_parts[: len(ancestor_keys) + 1]) + "._key"`; joining a
tuple containing `None` is a Python `TypeError`. -/
def default_key_col (childParts : List (Option String)) (ancLen : Nat) :
    Except WalkErr String :=
  match (childParts.take (ancLen + 1)).mapM id with
  | some parts => .ok (String.intercalate "." parts ++ "._key")
  | none => .error (.pyTypeError "sequence item: expected str instance, NoneType found")

/-- `col_name` selection in the table branch (converter.py lines 115-118):
a truthy `key_name` wins, otherwise the generated default. -/
def col_name_for (h : Handler) (childParts : List (Option String)) (ancLen : Nat) :
    Except WalkErr String :=
  match h.key_name with
  | some k => if k = "" then default_key_col childParts ancLen else .ok k
  | none => default_key_col childParts ancLen

/-- `dict(ancestor_keys)`: the pre-populated row holding one key column
per table boundary. -/
def row_of_ancestor_keys (anc : List (String × String)) : Row :=
  anc.foldl (fun r ck => pyDictInsert r (some ck.1) (.str ck.2)) []

/-- `self.tables[key].append(row)` on the defaultdict: a fresh table
identity is appended at the end, and the new row id is appended to the
table's row list.  Returns the new state and the new row's id. -/
def add_row (st : ConvState) (key : List (Option String)) (r : Row) : ConvState × Nat :=
  let rid := st.rows.length
  let tables :=
    if key ∈ st.tables.map Prod.fst then
      st.tables.map fun t => if t.1 = key then (t.1, t.2 ++ [rid]) else t
    else st.tables ++ [(key, [rid])]
  (⟨st.rows ++ [r], tables⟩, rid)

/-- `row[k] = v` on the row identified by `rid`. -/
def set_row_field (st : ConvState) (rid : Nat) (k : Option String) (v : Scalar) :
    ConvState :=
  { st with rows := st.rows.set rid (pyDictInsert (st.rows.getD rid []) k v) }

/-- `field + "." + child_key` when a field prefix is set, else the bare
child key (converter.py lines 144-146). -/
def extend_field : Option String → String → String
  | some f, k => f ++ "." ++ k
  | none, k => k

mutual

/-- `Converter._walk` (converter.py lines 82-161).  The container cases
are split per value constructor because an object's children are its
entries while an array's children are `(str(i), elem)`; each handler-kind
loop below is one of the source's `for child_key, child in children`
loops. -/
def walk (handlers : List Handler) : JVal → List String → List (String × String) →
    List (Option String) → Option String → Option Nat → ConvState →
    Except WalkErr ConvState
  | val, path, anc, tp, field, row, st =>
    let handler := find_handler handlers path
    if handler.any fun h => decide (h.kind = "ignore") then .ok st
    else
      match val with
      | .scalar c =>
        -- scalars go directly into the current row (lines 89-99)
        match row with
        | none => .error (.pyTypeError "argument of type NoneType is not iterable")
        | some rid =>
          if field ∈ (st.rows.getD rid []).map Prod.fst then
            -- the collision message interpolates '.'.join(table_parts),
            -- which raises TypeError first when a table part is None
            match (tp.mapM id : Option (List String)) with
            | none =>
              .error (.pyTypeError "sequence item: expected str instance, NoneType found")
            | some _ => .error (.conv (.collision field tp path))
          else .ok (set_row_field st rid field c)
      | .obj es =>
        match handler with
        | none => .error (.conv (.noHandler path "object"))
        | some h =>
          if h.kind = "table" then
            match col_name_for h (tp ++ [h.name]) anc.length with
            | .error e => .error e
            | .ok colName =>
              walk_table_obj handlers h.name (tp ++ [h.name]) colName path anc es st
          else if h.kind = "column" then walk_col_obj handlers path anc tp field row es st
          else if h.kind = "row" then
            walk_row_obj handlers path anc tp
              (add_row st tp (row_of_ancestor_keys anc)).2 es
              (add_row st tp (row_of_ancestor_keys anc)).1
          else .ok st
      | .arr l =>
        match handler with
        | none => .error (.conv (.noHandler path "array"))
        | some h =>
          if h.kind = "table" then
            match col_name_for h (tp ++ [h.name]) anc.length with
            | .error e => .error e
            | .ok colName =>
              walk_table_arr handlers h.name (tp ++ [h.name]) colName path anc 0 l st
          else if h.kind = "column" then
            -- lines 136-137: a fallback column handler rejects arrays
            if h.fallback then .error (.conv (.noHandler path "array"))
            else walk_col_arr handlers path anc tp field row 0 l st
          else if h.kind = "row" then
            walk_row_arr handlers path anc tp
              (add_row st tp (row_of_ancestor_keys anc)).2 0 l
              (add_row st tp (row_of_ancestor_keys anc)).1
          else .ok st

/-- The `case "table"` loop over an object's children (lines 119-133). -/
def walk_table_obj (handlers : List Handler) (tblName : Option String)
    (childParts : List (Option String)) (colName : String) (path : List String)
    (anc : List (String × String)) :
    List (String × JVal) → ConvState → Except WalkErr ConvState
  | [], st => .ok st
  | (k, v) :: rest, st =>
    let pr := add_row st childParts (row_of_ancestor_keys (anc ++ [(colName, k)]))
    match v with
    | .scalar c =>
      walk_table_obj handlers tblName childParts colName path anc rest
        (set_row_field pr.1 pr.2 tblName c)
    | _ =>
      match walk handlers v (path ++ [k]) (anc ++ [(colName, k)]) childParts none
          (some pr.2) pr.1 with
      | .error e => .error e
      | .ok st2 => walk_table_obj handlers tblName childParts colName path anc rest st2

/-- The `case "table"` loop over an array's children. -/
def walk_table_arr (handlers : List Handler) (tblName : Option String)
    (childParts : List (Option String)) (colName : String) (path : List String)
    (anc : List (String × String)) :
    Nat → List JVal → ConvState → Except WalkErr ConvState
  | _, [], st => .ok st
  | i, v :: rest, st =>
    let pr := add_row st childParts (row_of_ancestor_keys (anc ++ [(colName, toString i)]))
    match v with
    | .scalar c =>
      walk_table_arr handlers tblName childParts colName path anc (i + 1) rest
        (set_row_field pr.1 pr.2 tblName c)
    | _ =>
      match walk handlers v (path ++ [toString i]) (anc ++ [(colName, toString i)])
          childParts none (some pr.2) pr.1 with
      | .error e => .error e
      | .ok st2 =>
        walk_table_arr handlers tblName childParts colName path anc (i + 1) rest st2

/-- The `case "column"` loop over an object's children (lines 138-148). -/
def walk_col_obj (handlers : List Handler) (path : List String)
    (anc : List (String × String)) (tp : List (Option String)) (field : Option String)
    (row : Option Nat) :
    List (String × JVal) → ConvState → Except WalkErr ConvState
  | [], st => .ok st
  | (k, v) :: rest, st =>
    match walk handlers v (path ++ [k]) anc tp (some (extend_field field k)) row st with
    | .error e => .error e
    | .ok st2 => walk_col_obj handlers path anc tp field row rest st2

/-- The `case "column"` loop over an array's children. -/
def walk_col_arr (handlers : List Handler) (path : List String)
    (anc : List (String × String)) (tp : List (Option String)) (field : Option String)
    (row : Option Nat) :
    Nat → List JVal → ConvState → Except WalkErr ConvState
  | _, [], st => .ok st
  | i, v :: rest, st =>
    match walk handlers v (path ++ [toString i]) anc tp
        (some (extend_field field (toString i))) row st with
    | .error e => .error e
    | .ok st2 => walk_col_arr handlers path anc tp field row (i + 1) rest st2

/-- The `case "row"` loop over an object's children (lines 150-161). -/
def walk_row_obj (handlers : List Handler) (path : List String)
    (anc : List (String × String)) (tp : List (Option String)) (rid : Nat) :
    List (String × JVal) → ConvState → Except WalkErr ConvState
  | [], st => .ok st
  | (k, v) :: rest, st =>
    match walk handlers v (path ++ [k]) anc tp (some k) (some rid) st with
    | .error e => .error e
    | .ok st2 => walk_row_obj handlers path anc tp rid rest st2

/-- The `case "row"` loop over an array's children. -/
def walk_row_arr (handlers : List Handler) (path : List String)
    (anc : List (String × String)) (tp : List (Option String)) (rid : Nat) :
    Nat → List JVal → ConvState → Except WalkErr ConvState
  | _, [], st => .ok st
  | i, v :: rest, st =>
    match walk handlers v (path ++ [toString i]) anc tp (some (toString i)) (some rid) st with
    | .error e => .error e
    | .ok st2 => walk_row_arr handlers path anc tp rid (i + 1) rest st2

end

/-- `(table_name,) if table_name else ()` — Python truthiness: `None` and
the empty string both give the empty tuple. -/
def initial_table_parts : Option String → List (Option String)
  | some n => if n = "" then [] else [some n]
  | none => []

/-- The empty converter state. -/
def init_state : ConvState := ⟨[], []⟩

/-- The table store as returned to the caller: each table identity with
its rows resolved from the row store. -/
def tables_out (st : ConvState) : List (List (Option String) × List Row) :=
  st.tables.map fun t => (t.1, t.2.map fun rid => st.rows.getD rid [])

/-- `Converter.convert`: decode (sorting object keys), walk from the root
with no field and no row, and return the table store. -/
def convert (doc : JVal) (handlers : List Handler) (table_name : Option String) :
    Except WalkErr (List (List (Option String) × List Row)) :=
  match walk handlers (decode doc) [] [] (initial_table_parts table_name) none none
      init_state with
  | .error e => .error e
  | .ok st => .ok (tables_out st)

/-! ## Claim theorems -/

/-- C6: converting `{"x": {"foo": 1, "bar": 2}}` with the single spec
`/:table:item` and no top-level table name yields exactly the table
`("item",)` with exactly one row whose mapping is
`{"item._key": "x", "foo": 1, "bar": 2}` (the model's row lists fields in
insertion order — key column first, then the sorted child keys — and the
final `Perm` conjunct states that this row equals the claimed dict as a
key-value mapping). -/
theorem convert_example1 :
    build_handlers ["/:table:item"] = .ok
      [⟨"table", [], some "item", none, false⟩,
       ⟨"column", ["*"], none, none, true⟩] ∧
    convert (.obj [("x", .obj [("foo", .scalar (.num 1)), ("bar", .scalar (.num 2))])])
      [⟨"table", [], some "item", none, false⟩,
       ⟨"column", ["*"], none, none, true⟩] none =
      .ok [([some "item"],
        [[(some "item._key", .str "x"), (some "bar", .num 2), (some "foo", .num 1)]])] ∧
    List.Perm
      [(some "item._key", Scalar.str "x"), (some "bar", Scalar.num 2),
        (some "foo", Scalar.num 1)]
      [(some "item._key", Scalar.str "x"), (some "foo", Scalar.num 1),
        (some "bar", Scalar.num 2)] := by
  refine ⟨by decide, by decide, ?_⟩
  decide

theorem find_handler_aux_first (p : List String) :
    ∀ (hs : List Handler) (fb : Option Handler) (g : Handler),
      hs.find? (fun h => h.matches p && !h.fallback) = some g →
      find_handler_aux p fb hs = some g := by
  intro hs
  induction hs with
  | nil => intro fb g hg; simp at hg
  | cons h rest ih =>
    intro fb g hg
    unfold find_handler_aux
    cases hm : h.matches p with
    | false =>
      rw [List.find?_cons_of_neg _ (by simp [hm])] at hg
      simpa using ih fb g hg
    | true =>
      cases hf : h.fallback with
      | true =>
        rw [List.find?_cons_of_neg _ (by simp [hm, hf])] at hg
        simpa using ih (some h) g hg
      | false =>
        rw [List.find?_cons_of_pos _ (by simp [hm, hf])] at hg
        simpa using hg

theorem find_handler_aux_fallback (p : List String) :
    ∀ (hs : List Handler) (fb : Option Handler) (res : Handler),
      find_handler_aux p fb hs = some res → res.fallback = true →
      ∀ g ∈ hs, g.matches p = true → g.fallback = true := by
  intro hs
  induction hs with
  | nil => intro fb res _ _ g hg; simp at hg
  | cons h rest ih =>
    intro fb res hres hfb g hg hgm
    unfold find_handler_aux at hres
    rcases List.mem_cons.mp hg with hq | hq
    · subst hq
      cases hf : g.fallback with
      | true => rfl
      | false =>
        simp [hgm, hf] at hres
        rw [hres] at hf
        rw [hf] at hfb
        exact hfb
    · cases hm : h.matches p with
      | false =>
        simp [hm] at hres
        exact ih fb res hres hfb g hq hgm
      | true =>
        cases hf : h.fallback with
        | true =>
          simp [hm, hf] at hres
          exact ih (some h) res hres hfb g hq hgm
        | false =>
          simp [hm, hf] at hres
          rw [← hres] at hfb
          rw [hf] at hfb
          exact absurd hfb (by simp)

/-- C3: `find_handler` scans in registration order and returns the first
matching non-fallback handler (the first conjunct: whenever `find?`
locates a first non-fallback match, that is the result); a fallback
handler is returned only when no non-fallback handler in the whole list
matches (the second conjunct) — so a non-fallback match always beats a
fallback match, regardless of their relative positions. -/
theorem find_handler_priority (hs : List Handler) (p : List String) :
    (∀ g, hs.find? (fun h => h.matches p && !h.fallback) = some g →
      find_handler hs p = some g) ∧
    (∀ h, find_handler hs p = some h → h.fallback = true →
      ∀ g ∈ hs, g.matches p = true → g.fallback = true) :=
  ⟨fun g hg => find_handler_aux_first p hs none g hg,
   fun h hh hfb => find_handler_aux_fallback p hs none h hh hfb⟩

/-- Witness for C3: on the path `["x"]`, with a matching fallback handler
registered before a matching non-fallback one, the non-fallback handler
wins. -/
theorem find_handler_priority_witness :
    find_handler
      [⟨"column", ["*"], none, none, true⟩, ⟨"column", ["*"], none, none, false⟩]
      ["x"] = some ⟨"column", ["*"], none, none, false⟩ :=
  (find_handler_priority
    [⟨"column", ["*"], none, none, true⟩, ⟨"column", ["*"], none, none, false⟩]
    ["x"]).1 _ (by decide)

theorem find_handler_aux_mem (p : List String) :
    ∀ (hs : List Handler) (fb : Option Handler) (h : Handler),
      find_handler_aux p fb hs = some h →
      (h ∈ hs ∧ h.matches p = true) ∨ fb = some h := by
  intro hs
  induction hs with
  | nil => intro fb h hr; right; simpa [find_handler_aux] using hr
  | cons g rest ih =>
    intro fb h hr
    unfold find_handler_aux at hr
    cases hm : g.matches p with
    | false =>
      simp [hm] at hr
      rcases ih fb h hr with ⟨h1, h2⟩ | h1
      · exact .inl ⟨List.mem_cons_of_mem _ h1, h2⟩
      · exact .inr h1
    | true =>
      cases hf : g.fallback with
      | true =>
        simp [hm, hf] at hr
        rcases ih (some g) h hr with ⟨h1, h2⟩ | h1
        · exact .inl ⟨List.mem_cons_of_mem _ h1, h2⟩
        · left
          rw [Option.some.injEq] at h1
          subst h1
          exact ⟨List.mem_cons_self _ _, hm⟩
      | false =>
        simp [hm, hf] at hr
        subst hr
        exact .inl ⟨List.mem_cons_self _ _, hm⟩

/-- A handler returned by `find_handler` belongs to the handler list and
matches the path. -/
theorem find_handler_mem {handlers : List Handler} {p : List String} {h : Handler}
    (hr : find_handler handlers p = some h) : h ∈ handlers ∧ h.matches p = true := by
  rcases find_handler_aux_mem p handlers none h hr with h1 | h1
  · exact h1
  · exact absurd h1 (by simp)

/-- C9: for any document whose root is a scalar, when no ignore-kind
handler is the one selected for the empty path (in particular when no
ignore-kind handler matches it), `convert` fails with the unchecked
`TypeError` of evaluating `field in row` with `row = None` — not with a
`ConvertError` and not with a `PathSpecError`. -/
theorem convert_scalar_root (s : Scalar) (handlers : List Handler) (tn : Option String)
    (hig : ∀ h ∈ handlers, h.matches [] = true → h.kind ≠ "ignore") :
    convert (.scalar s) handlers tn =
      .error (.pyTypeError "argument of type NoneType is not iterable") := by
  have hany : (find_handler handlers []).any (fun h => decide (h.kind = "ignore")) = false := by
    cases hfh : find_handler handlers [] with
    | none => rfl
    | some h =>
      have := find_handler_mem hfh
      simp [Option.any]
      exact hig h this.1 this.2
  unfold convert
  rw [show decode (.scalar s) = .scalar s from rfl]
  unfold walk
  simp [hany]

/-- Witness for C9: the JSON document `5` with the handlers of
`/:table:item` fails with the modelled `TypeError`. -/
theorem convert_scalar_root_witness :
    convert (.scalar (.num 5))
      [⟨"table", [], some "item", none, false⟩, ⟨"column", ["*"], none, none, true⟩]
      none = .error (.pyTypeError "argument of type NoneType is not iterable") :=
  convert_scalar_root (.num 5) _ none (by decide)

/-- Counterexample to C2 as stated: with the handlers of `/:table:item`,
the array at path `["x"]` in `{"x": [1]}` *is* matched by the
auto-generated fallback column handler, yet the walker raises the
no-handler conversion error instead of routing it. -/
theorem fallback_array_counterexample :
    build_handlers ["/:table:item"] = .ok
      [⟨"table", [], some "item", none, false⟩, ⟨"column", ["*"], none, none, true⟩] ∧
    find_handler
      [⟨"table", [], some "item", none, false⟩, ⟨"column", ["*"], none, none, true⟩]
      ["x"] = some ⟨"column", ["*"], none, none, true⟩ ∧
    Handler.matches ⟨"column", ["*"], none, none, true⟩ ["x"] = true ∧
    convert (.obj [("x", .arr [.scalar (.num 1)])])
      [⟨"table", [], some "item", none, false⟩, ⟨"column", ["*"], none, none, true⟩]
      none = .error (.conv (.noHandler ["x"] "array")) := by
  refine ⟨by decide, by decide, by decide, by decide⟩

/-! ## Error classification (C2) -/

/-- The condition under which each `ConvertError` raise site fires: a
no-handler error arises either with no matching handler at the path, or
for an array whose selected handler is a fallback column handler; a
collision error is (by construction, converter.py lines 90-98) raised
exactly when the field already exists in the current row. -/
def ConvErrCond (handlers : List Handler) : ConvertErr → Prop
  | .noHandler p t =>
    find_handler handlers p = none ∨
      (t = "array" ∧ ∃ h, find_handler handlers p = some h ∧ h.fallback = true ∧
        h.kind = "column")
  | .collision _ _ _ => True

theorem col_name_for_no_conv {h : Handler} {cp : List (Option String)} {al : Nat}
    {e : WalkErr} (hr : col_name_for h cp al = .error e) : ∀ ce, e ≠ .conv ce := by
  unfold col_name_for default_key_col at hr
  cases hkn : h.key_name with
  | none =>
    rw [hkn] at hr
    cases hm : ((cp.take (al + 1)).mapM id : Option (List String)) with
    | none =>
      rw [hm] at hr
      simp at hr
      subst hr
      simp
    | some parts =>
      rw [hm] at hr
      simp at hr
  | some k =>
    rw [hkn] at hr
    dsimp only at hr
    by_cases hk : k = ""
    · rw [if_pos hk] at hr
      cases hm : ((cp.take (al + 1)).mapM id : Option (List String)) with
      | none =>
        rw [hm] at hr
        simp at hr
        subst hr
        simp
      | some parts =>
        rw [hm] at hr
        simp at hr
    · rw [if_neg hk] at hr
      simp at hr

def WalkC (handlers : List Handler) (val : JVal) (path : List String)
    (anc : List (String × String)) (tp : List (Option String)) (field : Option String)
    (row : Option Nat) (st : ConvState) : Prop :=
  ∀ e, walk handlers val path anc tp field row st = .error (.conv e) →
    ConvErrCond handlers e

def TObjC (handlers : List Handler) (tblName : Option String)
    (childParts : List (Option String)) (colName : String) (path : List String)
    (anc : List (String × String)) (es : List (String × JVal)) (st : ConvState) : Prop :=
  ∀ e, walk_table_obj handlers tblName childParts colName path anc es st =
    .error (.conv e) → ConvErrCond handlers e

def TArrC (handlers : List Handler) (tblName : Option String)
    (childParts : List (Option String)) (colName : String) (path : List String)
    (anc : List (String × String)) (i : Nat) (l : List JVal) (st : ConvState) : Prop :=
  ∀ e, walk_table_arr handlers tblName childParts colName path anc i l st =
    .error (.conv e) → ConvErrCond handlers e

def CObjC (handlers : List Handler) (path : List String) (anc : List (String × String))
    (tp : List (Option String)) (field : Option String) (row : Option Nat)
    (es : List (String × JVal)) (st : ConvState) : Prop :=
  ∀ e, walk_col_obj handlers path anc tp field row es st = .error (.conv e) →
    ConvErrCond handlers e

def CArrC (handlers : List Handler) (path : List String) (anc : List (String × String))
    (tp : List (Option String)) (field : Option String) (row : Option Nat) (i : Nat)
    (l : List JVal) (st : ConvState) : Prop :=
  ∀ e, walk_col_arr handlers path anc tp field row i l st = .error (.conv e) →
    ConvErrCond handlers e

def RObjC (handlers : List Handler) (path : List String) (anc : List (String × String))
    (tp : List (Option String)) (rid : Nat) (es : List (String × JVal))
    (st : ConvState) : Prop :=
  ∀ e, walk_row_obj handlers path anc tp rid es st = .error (.conv e) →
    ConvErrCond handlers e

def RArrC (handlers : List Handler) (path : List String) (anc : List (String × String))
    (tp : List (Option String)) (rid : Nat) (i : Nat) (l : List JVal)
    (st : ConvState) : Prop :=
  ∀ e, walk_row_arr handlers path anc tp rid i l st = .error (.conv e) →
    ConvErrCond handlers e

theorem walk_classified_bundle (handlers : List Handler) : ∀ n : Nat,
    (∀ val path anc tp field row st, 2 * jsize val ≤ n →
      WalkC handlers val path anc tp field row st) ∧
    (∀ es, 2 * esize es + 1 ≤ n →
      (∀ tblName childParts colName path anc st,
        TObjC handlers tblName childParts colName path anc es st) ∧
      (∀ path anc tp field row st, CObjC handlers path anc tp field row es st) ∧
      (∀ path anc tp rid st, RObjC handlers path anc tp rid es st)) ∧
    (∀ l, 2 * lsize l + 1 ≤ n →
      (∀ tblName childParts colName path anc i st,
        TArrC handlers tblName childParts colName path anc i l st) ∧
      (∀ path anc tp field row i st, CArrC handlers path anc tp field row i l st) ∧
      (∀ path anc tp rid i st, RArrC handlers path anc tp rid i l st)) := by
  intro n
  induction n using Nat.strong_induction_on with
  | _ n ih =>
    refine ⟨?_, ?_, ?_⟩
    · -- walk
      intro val path anc tp field row st hsz e hw
      unfold walk at hw
      cases hfh : find_handler handlers path with
      | none =>
        rw [hfh] at hw
        dsimp only [Option.any] at hw
        rw [if_neg (by simp)] at hw
        cases val with
        | scalar c =>
          cases row with
          | none => simp at hw
          | some rid =>
            dsimp only at hw
            by_cases hmem : field ∈ (st.rows.getD rid []).map Prod.fst
            · rw [if_pos hmem] at hw
              cases hmap : (tp.mapM id : Option (List String)) with
              | none => rw [hmap] at hw; simp at hw
              | some parts =>
                rw [hmap] at hw
                simp at hw
                subst hw
                trivial
            · rw [if_neg hmem] at hw
              simp at hw
        | obj es =>
          dsimp only at hw
          simp at hw
          subst hw
          exact Or.inl hfh
        | arr l =>
          dsimp only at hw
          simp at hw
          subst hw
          exact Or.inl hfh
      | some h =>
        rw [hfh] at hw
        dsimp only [Option.any] at hw
        by_cases hig : h.kind = "ignore"
        · rw [if_pos (by simp [hig])] at hw
          simp at hw
        · rw [if_neg (by simp [hig])] at hw
          cases val with
          | scalar c =>
            cases row with
            | none => simp at hw
            | some rid =>
              dsimp only at hw
              by_cases hmem : field ∈ (st.rows.getD rid []).map Prod.fst
              · rw [if_pos hmem] at hw
                cases hmap : (tp.mapM id : Option (List String)) with
                | none => rw [hmap] at hw; simp at hw
                | some parts =>
                  rw [hmap] at hw
                  simp at hw
                  subst hw
                  trivial
              · rw [if_neg hmem] at hw
                simp at hw
          | obj es =>
            have hes : 2 * esize es + 1 < n := by simp [jsize] at hsz; omega
            dsimp only at hw
            by_cases hk1 : h.kind = "table"
            · rw [if_pos hk1] at hw
              cases hcn : col_name_for h (tp ++ [h.name]) anc.length with
              | error e2 =>
                rw [hcn] at hw
                simp at hw
                exact absurd hw (col_name_for_no_conv hcn e)
              | ok colName =>
                rw [hcn] at hw
                exact ((ih _ hes).2.1 es le_rfl).1 h.name (tp ++ [h.name]) colName
                  path anc st e hw
            · rw [if_neg hk1] at hw
              by_cases hk2 : h.kind = "column"
              · rw [if_pos hk2] at hw
                exact ((ih _ hes).2.1 es le_rfl).2.1 path anc tp field row st e hw
              · rw [if_neg hk2] at hw
                by_cases hk3 : h.kind = "row"
                · rw [if_pos hk3] at hw
                  exact ((ih _ hes).2.1 es le_rfl).2.2 path anc tp
                    (add_row st tp (row_of_ancestor_keys anc)).2
                    (add_row st tp (row_of_ancestor_keys anc)).1 e hw
                · rw [if_neg hk3] at hw
                  simp at hw
          | arr l =>
            have hls : 2 * lsize l + 1 < n := by simp [jsize] at hsz; omega
            dsimp only at hw
            by_cases hk1 : h.kind = "table"
            · rw [if_pos hk1] at hw
              cases hcn : col_name_for h (tp ++ [h.name]) anc.length with
              | error e2 =>
                rw [hcn] at hw
                simp at hw
                exact absurd hw (col_name_for_no_conv hcn e)
              | ok colName =>
                rw [hcn] at hw
                exact ((ih _ hls).2.2 l le_rfl).1 h.name (tp ++ [h.name]) colName
                  path anc 0 st e hw
            · rw [if_neg hk1] at hw
              by_cases hk2 : h.kind = "column"
              · rw [if_pos hk2] at hw
                by_cases hfb : h.fallback = true
                · rw [if_pos hfb] at hw
                  simp at hw
                  subst hw
                  exact Or.inr ⟨rfl, h, hfh, hfb, hk2⟩
                · rw [if_neg hfb] at hw
                  exact ((ih _ hls).2.2 l le_rfl).2.1 path anc tp field row 0 st e hw
              · rw [if_neg hk2] at hw
                by_cases hk3 : h.kind = "row"
                · rw [if_pos hk3] at hw
                  exact ((ih _ hls).2.2 l le_rfl).2.2 path anc tp
                    (add_row st tp (row_of_ancestor_keys anc)).2 0
                    (add_row st tp (row_of_ancestor_keys anc)).1 e hw
                · rw [if_neg hk3] at hw
                  simp at hw
    · -- object loops
      intro es hes
      refine ⟨?_, ?_, ?_⟩
      · intro tblName childParts colName path anc st e hw
        cases es with
        | nil => simp [walk_table_obj] at hw
        | cons kv rest =>
          obtain ⟨k, v⟩ := kv
          have h1 : 2 * jsize v < n := by
            simp [esize] at hes; omega
          have h2 : 2 * esize rest + 1 < n := by
            simp [esize] at hes; have := jsize_pos v; omega
          unfold walk_table_obj at hw
          cases v with
          | scalar c =>
            dsimp only at hw
            exact ((ih _ h2).2.1 rest le_rfl).1 tblName childParts colName path anc
              _ e hw
          | obj es2 =>
            dsimp only at hw
            split at hw
            · rename_i e2 heq
              simp at hw
              subst hw
              exact (ih _ h1).1 (.obj es2) _ _ _ _ _ _ le_rfl e heq
            · rename_i st2 heq
              exact ((ih _ h2).2.1 rest le_rfl).1 tblName childParts colName path anc
                st2 e hw
          | arr l2 =>
            dsimp only at hw
            split at hw
            · rename_i e2 heq
              simp at hw
              subst hw
              exact (ih _ h1).1 (.arr l2) _ _ _ _ _ _ le_rfl e heq
            · rename_i st2 heq
              exact ((ih _ h2).2.1 rest le_rfl).1 tblName childParts colName path anc
                st2 e hw
      · intro path anc tp field row st e hw
        cases es with
        | nil => simp [walk_col_obj] at hw
        | cons kv rest =>
          obtain ⟨k, v⟩ := kv
          have h1 : 2 * jsize v < n := by
            simp [esize] at hes; omega
          have h2 : 2 * esize rest + 1 < n := by
            simp [esize] at hes; have := jsize_pos v; omega
          unfold walk_col_obj at hw
          split at hw
          · rename_i e2 heq
            simp at hw
            subst hw
            exact (ih _ h1).1 v _ _ _ _ _ _ le_rfl e heq
          · rename_i st2 heq
            exact ((ih _ h2).2.1 rest le_rfl).2.1 path anc tp field row st2 e hw
      · intro path anc tp rid st e hw
        cases es with
        | nil => simp [walk_row_obj] at hw
        | cons kv rest =>
          obtain ⟨k, v⟩ := kv
          have h1 : 2 * jsize v < n := by
            simp [esize] at hes; omega
          have h2 : 2 * esize rest + 1 < n := by
            simp [esize] at hes; have := jsize_pos v; omega
          unfold walk_row_obj at hw
          split at hw
          · rename_i e2 heq
            simp at hw
            subst hw
            exact (ih _ h1).1 v _ _ _ _ _ _ le_rfl e heq
          · rename_i st2 heq
            exact ((ih _ h2).2.1 rest le_rfl).2.2 path anc tp rid st2 e hw
    · -- array loops
      intro l hls
      refine ⟨?_, ?_, ?_⟩
      · intro tblName childParts colName path anc i st e hw
        cases l with
        | nil => simp [walk_table_arr] at hw
        | cons v rest =>
          have h1 : 2 * jsize v < n := by
            simp [lsize] at hls; omega
          have h2 : 2 * lsize rest + 1 < n := by
            simp [lsize] at hls; have := jsize_pos v; omega
          unfold walk_table_arr at hw
          cases v with
          | scalar c =>
            dsimp only at hw
            exact ((ih _ h2).2.2 rest le_rfl).1 tblName childParts colName path anc
              (i + 1) _ e hw
          | obj es2 =>
            dsimp only at hw
            split at hw
            · rename_i e2 heq
              simp at hw
              subst hw
              exact (ih _ h1).1 (.obj es2) _ _ _ _ _ _ le_rfl e heq
            · rename_i st2 heq
              exact ((ih _ h2).2.2 rest le_rfl).1 tblName childParts colName path anc
                (i + 1) st2 e hw
          | arr l2 =>
            dsimp only at hw
            split at hw
            · rename_i e2 heq
              simp at hw
              subst hw
              exact (ih _ h1).1 (.arr l2) _ _ _ _ _ _ le_rfl e heq
            · rename_i st2 heq
              exact ((ih _ h2).2.2 rest le_rfl).1 tblName childParts colName path anc
                (i + 1) st2 e hw
      · intro path anc tp field row i st e hw
        cases l with
        | nil => simp [walk_col_arr] at hw
        | cons v rest =>
          have h1 : 2 * jsize v < n := by
            simp [lsize] at hls; omega
          have h2 : 2 * lsize rest + 1 < n := by
            simp [lsize] at hls; have := jsize_pos v; omega
          unfold walk_col_arr at hw
          split at hw
          · rename_i e2 heq
            simp at hw
            subst hw
            exact (ih _ h1).1 v _ _ _ _ _ _ le_rfl e heq
          · rename_i st2 heq
            exact ((ih _ h2).2.2 rest le_rfl).2.1 path anc tp field row (i + 1) st2 e hw
      · intro path anc tp rid i st e hw
        cases l with
        | nil => simp [walk_row_arr] at hw
        | cons v rest =>
          have h1 : 2 * jsize v < n := by
            simp [lsize] at hls; omega
          have h2 : 2 * lsize rest + 1 < n := by
            simp [lsize] at hls; have := jsize_pos v; omega
          unfold walk_row_arr at hw
          split at hw
          · rename_i e2 heq
            simp at hw
            subst hw
            exact (ih _ h1).1 v _ _ _ _ _ _ le_rfl e heq
          · rename_i st2 heq
            exact ((ih _ h2).2.2 rest le_rfl).2.2 path anc tp rid (i + 1) st2 e hw

/-- C2 (amended): the tree walker raises a `ConvertError` only for (a) a
non-scalar node with no matching handler, (a\') an array whose selected
handler is an auto-generated fallback column handler — this case falsifies
the claim as stated, see the counterexample — and (b) a column-name
collision within one row; in particular a non-scalar *object* whose path
is matched by some handler, including a fallback, is routed and processed
rather than failing with a no-handler error (second conjunct). -/
theorem convert_error_classified :
    (∀ handlers val path anc tp field row st e,
      walk handlers val path anc tp field row st = .error (.conv e) →
      ConvErrCond handlers e) ∧
    (∀ handlers doc tn p,
      convert doc handlers tn = .error (.conv (.noHandler p "object")) →
      find_handler handlers p = none) := by
  constructor
  · intro handlers val path anc tp field row st e hw
    exact (walk_classified_bundle handlers (2 * jsize val)).1 val path anc tp field
      row st le_rfl e hw
  · intro handlers doc tn p hc
    unfold convert at hc
    cases hwk : walk handlers (decode doc) [] [] (initial_table_parts tn) none none
        init_state with
    | ok st => rw [hwk] at hc; simp at hc
    | error e =>
      rw [hwk] at hc
      simp at hc
      subst hc
      have hcl := (walk_classified_bundle handlers (2 * jsize (decode doc))).1 _ _ _ _
        _ _ _ le_rfl _ hwk
      rcases hcl with h1 | ⟨h1, -⟩
      · exact h1
      · exact absurd h1 (by decide)

/-- Witness for C2 (amended): on the document `{"5": {"nested": {"a": 1}}}`
with the handlers of `/:table:item`, the walker reports a no-handler error
for the object at `["5", "nested"]`, and indeed no handler matches that
path. -/
theorem convert_error_classified_witness :
    find_handler
      [⟨"table", [], some "item", none, false⟩, ⟨"column", ["*"], none, none, true⟩]
      ["5", "nested"] = none :=
  convert_error_classified.2 _
    (.obj [("5", .obj [("nested", .obj [("a", .scalar (.num 1))])])]) none
    ["5", "nested"] (by decide)

/-! ## The pathspec suggestion (C4) -/

/-- The starring condition of the amended C4: handler `h` stars position
`i` of the path when it is a non-fallback table handler whose components
match the length-`i` prefix of the path. -/
def star_cond (path : List String) (i : Nat) (h : Handler) : Bool :=
  decide (h.kind = "table") && !h.fallback && decide (h.components.length = i) &&
    h.matches (path.take i)

theorem star_step_length (path spec : List String) (h : Handler) :
    (star_step path spec h).length = spec.length := by
  unfold star_step
  repeat' split
  all_goals simp

theorem star_step_getElem (path spec : List String) (h : Handler)
    (hlen : spec.length = path.length) (i : Nat) :
    (star_step path spec h)[i]? = spec[i]?.map fun s =>
      if star_cond path i h && pyIsDigit s then "*" else s := by
  unfold star_step
  by_cases hk : h.kind = "table" ∧ h.fallback = false
  · rw [if_pos hk]
    by_cases hn : h.components.length < path.length ∧
        h.matches (path.take h.components.length) = true
    · rw [if_pos hn]
      have hnlt : h.components.length < spec.length := by omega
      by_cases hd : pyIsDigit (spec.getD h.components.length "") = true
      · rw [if_pos hd]
        by_cases hni : h.components.length = i
        · subst hni
          rw [List.getElem?_set_eq_of_lt _ hnlt,
            List.getElem?_eq_getElem hnlt]
          have hgd : spec.getD h.components.length "" = spec[h.components.length] := by
            rw [List.getD_eq_getElem?_getD, List.getElem?_eq_getElem hnlt]
            rfl
          rw [hgd] at hd
          simp [star_cond, hk.1, hk.2, hn.2, hd]
        · rw [List.getElem?_set_ne (by omega)]
          cases hsp : spec[i]? with
          | none => simp
          | some s =>
            simp [star_cond, hni]
      · rw [if_neg hd]
        cases hsp : spec[i]? with
        | none => simp
        | some s =>
          by_cases hni : h.components.length = i
          · subst hni
            have hgd : spec.getD h.components.length "" = s := by
              rw [List.getD_eq_getElem?_getD, hsp]
              rfl
            rw [hgd] at hd
            simp [star_cond, hd]
          · simp [star_cond, hni]
    · rw [if_neg hn]
      cases hsp : spec[i]? with
      | none => simp
      | some s =>
        by_cases hni : h.components.length = i
        · subst hni
          have hi : h.components.length < spec.length := by
            by_contra hcon
            rw [List.getElem?_eq_none (by omega)] at hsp
            simp at hsp
          have : ¬ h.matches (path.take h.components.length) = true := by
            intro hm
            exact hn ⟨by omega, hm⟩
          simp [star_cond, this]
        · simp [star_cond, hni]
  · rw [if_neg hk]
    cases hsp : spec[i]? with
    | none => simp
    | some s =>
      have : star_cond path i h = false := by
        unfold star_cond
        rcases not_and_or.mp hk with hk1 | hk2
        · simp [hk1]
        · have : h.fallback = true := by
            cases hb : h.fallback with
            | true => rfl
            | false => exact absurd hb hk2
          simp [this]
      simp [this]

theorem foldl_star_getElem (path : List String) :
    ∀ (hs : List Handler) (spec : List String), spec.length = path.length →
      ∀ i, (hs.foldl (star_step path) spec)[i]? = spec[i]?.map fun s =>
        if hs.any (star_cond path i) && pyIsDigit s then "*" else s := by
  intro hs
  induction hs with
  | nil =>
    intro spec hlen i
    simp
  | cons h hs' ih =>
    intro spec hlen i
    rw [List.foldl_cons,
      ih (star_step path spec h) (by rw [star_step_length]; exact hlen) i,
      star_step_getElem path spec h hlen i]
    cases hsp : spec[i]? with
    | none => simp
    | some s =>
      have hstar : pyIsDigit "*" = false := by decide
      by_cases hc1 : star_cond path i h = true
      · by_cases hd : pyIsDigit s = true
        · simp [hc1, hd, hstar]
        · simp [hc1, hd]
      · have : star_cond path i h = false := by
          cases hb : star_cond path i h with
          | true => exact absurd hb hc1
          | false => rfl
        simp [this]

/-- Counterexample to C4 as stated: in `{"5": {"nested": {"a": 1}}}` with
the handlers of `/:table:item`, the failing path is `["5", "nested"]`
whose position 0 is an *object key* — not an array index — yet the
suggestion stars it: the diagnostic suggests `/*/nested`, not the
`/5/nested` the claim requires for a non-array-index position. -/
theorem pathspec_digit_object_key :
    build_handlers ["/:table:item"] = .ok
      [⟨"table", [], some "item", none, false⟩, ⟨"column", ["*"], none, none, true⟩] ∧
    convert (.obj [("5", .obj [("nested", .obj [("a", .scalar (.num 1))])])])
      [⟨"table", [], some "item", none, false⟩, ⟨"column", ["*"], none, none, true⟩]
      none = .error (.conv (.noHandler ["5", "nested"] "object")) ∧
    path_to_pathspec
      [⟨"table", [], some "item", none, false⟩, ⟨"column", ["*"], none, none, true⟩]
      ["5", "nested"] = "/*/nested" ∧
    "/*/nested" ≠ "/5/nested" := by
  refine ⟨by decide, by decide, by decide, by decide⟩

/-- C4 (amended): the suggestion stars exactly those positions whose
segment is a Python digit string (`str.isdigit`, which also accepts
Unicode digits) and which sit immediately after a matching non-fallback
table handler prefix — the code tests the digit *shape* of the segment,
not whether it really was an array index (see the counterexample); every
other position keeps its literal key.  The claim example holds:
`[{"nested": {"a": 1}}]` under `/:table:item` fails at `["0", "nested"]`
with suggested path `/*/nested`; and an Arabic-Indic digit key `٥` is
starred just like an ASCII one (final conjuncts). -/
theorem path_to_pathspec_stars :
    (∀ (handlers : List Handler) (path : List String) (i : Nat),
      (handlers.foldl (star_step path) path)[i]? = path[i]?.map fun s =>
        if handlers.any (star_cond path i) && pyIsDigit s then "*" else s) ∧
    (∀ (handlers : List Handler) (path : List String),
      path_to_pathspec handlers path =
        "/" ++ String.intercalate "/" (handlers.foldl (star_step path) path)) ∧
    convert (.arr [.obj [("nested", .obj [("a", .scalar (.num 1))])]])
      [⟨"table", [], some "item", none, false⟩, ⟨"column", ["*"], none, none, true⟩]
      none = .error (.conv (.noHandler ["0", "nested"] "object")) ∧
    path_to_pathspec
      [⟨"table", [], some "item", none, false⟩, ⟨"column", ["*"], none, none, true⟩]
      ["0", "nested"] = "/*/nested" ∧
    pyIsDigit "٥" = true ∧
    path_to_pathspec
      [⟨"table", [], some "item", none, false⟩, ⟨"column", ["*"], none, none, true⟩]
      ["٥", "nested"] = "/*/nested" := by
  refine ⟨?_, fun handlers path => rfl, by decide, by decide, by decide, by decide⟩
  intro handlers path i
  exact foldl_star_getElem path handlers path rfl i

/-! ## The scalar step (C5) and column flattening (C7) -/

theorem ignore_any_false {handlers : List Handler} {path : List String}
    (hig : ∀ h, find_handler handlers path = some h → h.kind ≠ "ignore") :
    (find_handler handlers path).any (fun h => decide (h.kind = "ignore")) = false := by
  cases hfh : find_handler handlers path with
  | none => rfl
  | some h =>
    simp [Option.any]
    exact hig h hfh

/-- One scalar step of the walker, collision case: the field already
exists in the current row, so the walker raises the collision error
naming the field, owning table and JSON path. -/
theorem walk_scalar_step_mem (handlers : List Handler) (c : Scalar) (path : List String)
    (anc : List (String × String)) (tp : List (Option String)) (field : Option String)
    (rid : Nat) (st : ConvState)
    (hig : ∀ h, find_handler handlers path = some h → h.kind ≠ "ignore")
    (hjoin : (tp.mapM id : Option (List String)).isSome)
    (hmem : field ∈ (st.rows.getD rid []).map Prod.fst) :
    walk handlers (.scalar c) path anc tp field (some rid) st =
      .error (.conv (.collision field tp path)) := by
  obtain ⟨parts, hp⟩ := Option.isSome_iff_exists.mp hjoin
  unfold walk
  simp only [ignore_any_false hig, Bool.false_eq_true, if_false]
  rw [if_pos hmem, hp]

/-- One scalar step of the walker, fresh-field case: the scalar is stored
in the row under the field and the walk continues without error. -/
theorem walk_scalar_step_new (handlers : List Handler) (c : Scalar) (path : List String)
    (anc : List (String × String)) (tp : List (Option String)) (field : Option String)
    (rid : Nat) (st : ConvState)
    (hig : ∀ h, find_handler handlers path = some h → h.kind ≠ "ignore")
    (hmem : field ∉ (st.rows.getD rid []).map Prod.fst) :
    walk handlers (.scalar c) path anc tp field (some rid) st =
      .ok (set_row_field st rid field c) := by
  unfold walk
  simp only [ignore_any_false hig, Bool.false_eq_true, if_false]
  rw [if_neg hmem]

/-- C5: a scalar visit with a field already present in the current row
raises the collision conversion error naming the field, the owning table
identity and the JSON path; a scalar visit with a fresh field stores it in
the row and succeeds (first conjunct, both branches).  The second conjunct
is example 3: the literal key `a.b` collides with the flattened path
`a.b` and is reported as a collision on field `a.b` in table `item` at
JSON path `/x/a.b`. -/
theorem scalar_collision_check :
    (∀ (handlers : List Handler) (c : Scalar) (path : List String)
        (anc : List (String × String)) (tp : List (Option String))
        (field : Option String) (rid : Nat) (st : ConvState),
      (∀ h, find_handler handlers path = some h → h.kind ≠ "ignore") →
      (tp.mapM id : Option (List String)).isSome →
      (field ∈ (st.rows.getD rid []).map Prod.fst →
        walk handlers (.scalar c) path anc tp field (some rid) st =
          .error (.conv (.collision field tp path))) ∧
      (field ∉ (st.rows.getD rid []).map Prod.fst →
        walk handlers (.scalar c) path anc tp field (some rid) st =
          .ok (set_row_field st rid field c))) ∧
    convert
      (.obj [("x", .obj [("a.b", .scalar (.str "d")),
        ("a", .obj [("b", .scalar (.str "n"))])])])
      [⟨"table", [], some "item", none, false⟩, ⟨"column", ["*"], none, none, true⟩,
       ⟨"column", ["*", "a"], none, none, false⟩,
       ⟨"column", ["*", "a", "*"], none, none, true⟩] none =
      .error (.conv (.collision (some "a.b") [some "item"] ["x", "a.b"])) := by
  refine ⟨?_, by decide⟩
  intro handlers c path anc tp field rid st hig hjoin
  exact ⟨walk_scalar_step_mem handlers c path anc tp field rid st hig hjoin,
    walk_scalar_step_new handlers c path anc tp field rid st hig⟩

/-- Witness for C5: a scalar visited with field `a.b` while the current
row already holds `a.b` raises the collision error. -/
theorem scalar_collision_check_witness :
    walk [] (.scalar (.str "n")) ["x", "a.b"] [] [some "item"] (some "a.b") (some 0)
      ⟨[[(some "a.b", .str "d")]], [([some "item"], [0])]⟩ =
      .error (.conv (.collision (some "a.b") [some "item"] ["x", "a.b"])) :=
  ((scalar_collision_check.1 [] (.str "n") ["x", "a.b"] [] [some "item"]
    (some "a.b") 0 ⟨[[(some "a.b", .str "d")]], [([some "item"], [0])]⟩
    (by intro h hfh; simp [find_handler, find_handler_aux] at hfh)
    (by decide)).1 (by decide))

theorem getD_set_self {α : Type} {l : List α} {i : Nat} (h : i < l.length) (x d : α) :
    (l.set i x).getD i d = x := by
  rw [List.getD_eq_getElem?_getD, List.getElem?_set_eq_of_lt x h]
  rfl

theorem set_getD_self {α : Type} {l : List α} {i : Nat} (h : i < l.length) (d : α) :
    l.set i (l.getD i d) = l := by
  apply List.ext_getElem?
  intro j
  by_cases hj : j = i
  · subst hj
    rw [List.getElem?_set_eq_of_lt _ h, List.getD_eq_getElem?_getD,
      List.getElem?_eq_getElem h]
    rfl
  · rw [List.getElem?_set_ne (by omega)]

theorem pyDictInsert_not_mem {α β : Type} [DecidableEq α] {d : List (α × β)} {k : α}
    (h : k ∉ d.map Prod.fst) (v : β) : pyDictInsert d k v = d ++ [(k, v)] := by
  unfold pyDictInsert
  rw [if_neg h]

theorem walk_col_obj_scalars (handlers : List Handler) (path : List String)
    (anc : List (String × String)) (tp : List (Option String)) (field : Option String) :
    ∀ (entries : List (String × Scalar)) (rid : Nat) (st : ConvState),
      rid < st.rows.length →
      (∀ k ∈ entries.map Prod.fst, ∀ h, find_handler handlers (path ++ [k]) = some h →
        h.kind ≠ "ignore") →
      (entries.map fun e => some (extend_field field e.1) : List (Option String)).Nodup →
      (∀ e ∈ entries, (some (extend_field field e.1)) ∉
        (st.rows.getD rid []).map Prod.fst) →
      walk_col_obj handlers path anc tp field (some rid)
        (entries.map fun e => (e.1, .scalar e.2)) st =
        .ok { st with rows := st.rows.set rid ((st.rows.getD rid []) ++
          entries.map fun e => (some (extend_field field e.1), e.2)) } := by
  intro entries
  induction entries with
  | nil =>
    intro rid st hrid _ _ _
    simp only [List.map_nil, List.append_nil]
    rw [set_getD_self hrid]
    rfl
  | cons e rest ih =>
    obtain ⟨k, c⟩ := e
    intro rid st hrid hig hnd hfresh
    rw [List.map_cons]
    unfold walk_col_obj
    rw [walk_scalar_step_new handlers c (path ++ [k]) anc tp
      (some (extend_field field k)) rid st
      (hig k (by simp))
      (hfresh (k, c) (by simp))]
    dsimp only
    have hrow1 : (set_row_field st rid (some (extend_field field k)) c).rows.getD rid []
        = (st.rows.getD rid []) ++ [(some (extend_field field k), c)] := by
      unfold set_row_field
      simp only
      rw [getD_set_self hrid]
      rw [pyDictInsert_not_mem (hfresh (k, c) (by simp)) c]
    rw [ih rid (set_row_field st rid (some (extend_field field k)) c)
      (by unfold set_row_field; simp [hrid])
      (by intro k2 hk2 h hfh; exact hig k2 (by simp [hk2]) h hfh)
      (by simpa using hnd.of_cons)
      (by
        intro e2 he2
        rw [hrow1]
        simp only [List.map_append, List.mem_append]
        rintro (hin | hin)
        · exact hfresh e2 (by simp [he2]) hin
        · simp at hin
          rcases List.pairwise_cons.mp hnd with ⟨hne, -⟩
          exact hne (some (extend_field field e2.1))
            (List.mem_map.mpr ⟨e2, he2, rfl⟩) (by simp [hin]))]
    unfold set_row_field
    simp only
    rw [getD_set_self hrid, List.set_set,
      pyDictInsert_not_mem (hfresh (k, c) (by simp)) c]
    simp

theorem walk_obj_column_dispatch (handlers : List Handler) (path : List String)
    (anc : List (String × String)) (tp : List (Option String)) (field : Option String)
    (row : Option Nat) (st : ConvState) (es : List (String × JVal)) (h : Handler)
    (hfh : find_handler handlers path = some h) (hk : h.kind = "column") :
    walk handlers (.obj es) path anc tp field row st =
      walk_col_obj handlers path anc tp field row es st := by
  unfold walk
  rw [hfh]
  simp [Option.any, hk]

/-- The dot-named fields a column handler produces for an array of
scalars, starting at index `i`. -/
def arr_col_fields (field : Option String) : Nat → List Scalar → List (Option String × Scalar)
  | _, [] => []
  | i, c :: rest =>
    (some (extend_field field (toString i)), c) :: arr_col_fields field (i + 1) rest

theorem walk_arr_column_dispatch (handlers : List Handler) (path : List String)
    (anc : List (String × String)) (tp : List (Option String)) (field : Option String)
    (row : Option Nat) (st : ConvState) (l : List JVal) (h : Handler)
    (hfh : find_handler handlers path = some h) (hk : h.kind = "column")
    (hfb : h.fallback = false) :
    walk handlers (.arr l) path anc tp field row st =
      walk_col_arr handlers path anc tp field row 0 l st := by
  unfold walk
  rw [hfh]
  simp [Option.any, hk, hfb]

theorem walk_arr_column_fallback (handlers : List Handler) (path : List String)
    (anc : List (String × String)) (tp : List (Option String)) (field : Option String)
    (row : Option Nat) (st : ConvState) (l : List JVal) (h : Handler)
    (hfh : find_handler handlers path = some h) (hk : h.kind = "column")
    (hfb : h.fallback = true) :
    walk handlers (.arr l) path anc tp field row st =
      .error (.conv (.noHandler path "array")) := by
  unfold walk
  rw [hfh]
  simp [Option.any, hk, hfb]

theorem walk_col_arr_scalars (handlers : List Handler) (path : List String)
    (anc : List (String × String)) (tp : List (Option String)) (field : Option String) :
    ∀ (elems : List Scalar) (i : Nat) (rid : Nat) (st : ConvState),
      rid < st.rows.length →
      (∀ k : String, ∀ h, find_handler handlers (path ++ [k]) = some h →
        h.kind ≠ "ignore") →
      ((arr_col_fields field i elems).map Prod.fst).Nodup →
      (∀ key ∈ (arr_col_fields field i elems).map Prod.fst,
        key ∉ (st.rows.getD rid []).map Prod.fst) →
      walk_col_arr handlers path anc tp field (some rid) i (elems.map JVal.scalar) st =
        .ok { st with rows := st.rows.set rid ((st.rows.getD rid []) ++
          arr_col_fields field i elems) } := by
  intro elems
  induction elems with
  | nil =>
    intro i rid st hrid _ _ _
    simp only [List.map_nil]
    unfold arr_col_fields
    rw [List.append_nil, set_getD_self hrid]
    rfl
  | cons c rest ih =>
    intro i rid st hrid hig hnd hfresh
    rw [List.map_cons]
    unfold walk_col_arr
    rw [walk_scalar_step_new handlers c (path ++ [toString i]) anc tp
      (some (extend_field field (toString i))) rid st
      (hig (toString i))
      (hfresh (some (extend_field field (toString i)))
        (by simp [arr_col_fields]))]
    dsimp only
    have hrow1 : (set_row_field st rid (some (extend_field field (toString i)))
        c).rows.getD rid []
        = (st.rows.getD rid []) ++ [(some (extend_field field (toString i)), c)] := by
      unfold set_row_field
      simp only
      rw [getD_set_self hrid]
      rw [pyDictInsert_not_mem (hfresh _ (by simp [arr_col_fields])) c]
    rw [ih (i + 1) rid (set_row_field st rid (some (extend_field field (toString i))) c)
      (by unfold set_row_field; simp [hrid])
      hig
      (by
        have h2 := hnd
        unfold arr_col_fields at h2
        simpa using h2.of_cons)
      (by
        intro key hkey
        rw [hrow1]
        simp only [List.map_append, List.mem_append]
        rintro (hin | hin)
        · exact hfresh key
            (by simp only [arr_col_fields, List.map_cons]
                exact List.mem_cons_of_mem _ hkey) hin
        · simp at hin
          unfold arr_col_fields at hnd
          rcases List.pairwise_cons.mp hnd with ⟨hne, -⟩
          exact hne key hkey hin.symm)]
    unfold set_row_field
    simp only
    rw [getD_set_self hrid, List.set_set,
      pyDictInsert_not_mem (hfresh _ (by simp [arr_col_fields])) c]
    simp [arr_col_fields]

/-- Counterexample to C7 as stated: the array at path `["x"]` is matched
by a column handler (the auto-generated fallback of `/:table:item`), yet
the walker raises the no-handler conversion error instead of recursing
into its `("0", 1)` child pair with the field rule — so the walker does
not recurse into every child pair under every column handler. -/
theorem column_fallback_array_counterexample :
    find_handler
      [⟨"table", [], some "item", none, false⟩, ⟨"column", ["*"], none, none, true⟩]
      ["x"] = some ⟨"column", ["*"], none, none, true⟩ ∧
    Handler.kind ⟨"column", ["*"], none, none, true⟩ = "column" ∧
    walk
      [⟨"table", [], some "item", none, false⟩, ⟨"column", ["*"], none, none, true⟩]
      (.arr [.scalar (.num 1)]) ["x"] [("item._key", "x")] [some "item"] none (some 0)
      ⟨[[(some "item._key", .str "x")]], [([some "item"], [0])]⟩ =
      .error (.conv (.noHandler ["x"] "array")) := by
  refine ⟨by decide, by decide, by decide⟩

/-- C7 (amended): under a column handler the walker recurses into every
`(child_key, child_value)` pair — the entries of an object (first
conjunct), and the `(str(index), element)` pairs of an array when the
column handler is not a fallback (second conjunct) — with the *same* row and the *same*
table identity, extending `field` to `field + "." + child_key` when set
and to `child_key` otherwise; a *fallback* column handler applied to an
array instead raises the no-handler error (third conjunct, see the
counterexample).  For scalar children the loops only append the
dot-named fields to that one row, leaving the table store, the row count
and every other row untouched (fourth and fifth conjuncts).  Sixth
conjunct: example 2 yields the single row
`name=alice, address.city=NYC, address.zip=10001`. -/
theorem column_handler_flattening :
    (∀ (handlers : List Handler) (path : List String) (anc : List (String × String))
        (tp : List (Option String)) (field : Option String) (row : Option Nat)
        (st : ConvState) (es : List (String × JVal)) (h : Handler),
      find_handler handlers path = some h → h.kind = "column" →
      walk handlers (.obj es) path anc tp field row st =
        walk_col_obj handlers path anc tp field row es st) ∧
    (∀ (handlers : List Handler) (path : List String) (anc : List (String × String))
        (tp : List (Option String)) (field : Option String) (row : Option Nat)
        (st : ConvState) (l : List JVal) (h : Handler),
      find_handler handlers path = some h → h.kind = "column" → h.fallback = false →
      walk handlers (.arr l) path anc tp field row st =
        walk_col_arr handlers path anc tp field row 0 l st) ∧
    (∀ (handlers : List Handler) (path : List String) (anc : List (String × String))
        (tp : List (Option String)) (field : Option String) (row : Option Nat)
        (st : ConvState) (l : List JVal) (h : Handler),
      find_handler handlers path = some h → h.kind = "column" → h.fallback = true →
      walk handlers (.arr l) path anc tp field row st =
        .error (.conv (.noHandler path "array"))) ∧
    (∀ (handlers : List Handler) (path : List String) (anc : List (String × String))
        (tp : List (Option String)) (field : Option String)
        (entries : List (String × Scalar)) (rid : Nat) (st : ConvState),
      rid < st.rows.length →
      (∀ k ∈ entries.map Prod.fst, ∀ h, find_handler handlers (path ++ [k]) = some h →
        h.kind ≠ "ignore") →
      (entries.map fun e => some (extend_field field e.1) : List (Option String)).Nodup →
      (∀ e ∈ entries, (some (extend_field field e.1)) ∉
        (st.rows.getD rid []).map Prod.fst) →
      walk_col_obj handlers path anc tp field (some rid)
        (entries.map fun e => (e.1, .scalar e.2)) st =
        .ok { st with rows := st.rows.set rid ((st.rows.getD rid []) ++
          entries.map fun e => (some (extend_field field e.1), e.2)) }) ∧
    (∀ (handlers : List Handler) (path : List String) (anc : List (String × String))
        (tp : List (Option String)) (field : Option String) (elems : List Scalar)
        (i : Nat) (rid : Nat) (st : ConvState),
      rid < st.rows.length →
      (∀ k : String, ∀ h, find_handler handlers (path ++ [k]) = some h →
        h.kind ≠ "ignore") →
      ((arr_col_fields field i elems).map Prod.fst).Nodup →
      (∀ key ∈ (arr_col_fields field i elems).map Prod.fst,
        key ∉ (st.rows.getD rid []).map Prod.fst) →
      walk_col_arr handlers path anc tp field (some rid) i (elems.map JVal.scalar) st =
        .ok { st with rows := st.rows.set rid ((st.rows.getD rid []) ++
          arr_col_fields field i elems) }) ∧
    convert
      (.obj [("a", .obj [("name", .scalar (.str "alice")),
        ("address", .obj [("city", .scalar (.str "NYC")),
          ("zip", .scalar (.str "10001"))])])])
      [⟨"table", [], some "item", none, false⟩, ⟨"column", ["*"], none, none, true⟩,
       ⟨"column", ["*", "address"], none, none, false⟩,
       ⟨"column", ["*", "address", "*"], none, none, true⟩] none =
      .ok [([some "item"],
        [[(some "item._key", .str "a"), (some "address.city", .str "NYC"),
          (some "address.zip", .str "10001"), (some "name", .str "alice")]])] := by
  refine ⟨walk_obj_column_dispatch, walk_arr_column_dispatch,
    walk_arr_column_fallback, ?_, ?_, by decide⟩
  · intro handlers path anc tp field entries rid st
    exact walk_col_obj_scalars handlers path anc tp field entries rid st
  · intro handlers path anc tp field elems i rid st
    exact walk_col_arr_scalars handlers path anc tp field elems i rid st

theorem column_handler_flattening_witness :
    walk_col_obj [] ["a"] [] [some "item"] (some "address") (some 0)
      [("city", .scalar (.str "NYC")), ("zip", .scalar (.str "10001"))]
      ⟨[[(some "item._key", .str "a"), (some "name", .str "alice")]],
       [([some "item"], [0])]⟩ =
      .ok ⟨[[(some "item._key", .str "a"), (some "name", .str "alice"),
             (some "address.city", .str "NYC"), (some "address.zip", .str "10001")]],
           [([some "item"], [0])]⟩ :=
  column_handler_flattening.2.2.2.1 [] ["a"] [] [some "item"] (some "address")
    [("city", .str "NYC"), ("zip", .str "10001")] 0
    ⟨[[(some "item._key", .str "a"), (some "name", .str "alice")]],
     [([some "item"], [0])]⟩
    (by decide)
    (by intro k hk h hfh; simp [find_handler, find_handler_aux] at hfh)
    (by decide) (by decide)


/-! ## Key-order independence (C8) -/
theorem char_toNat_inj {a b : Char} (h : a.toNat = b.toNat) : a = b := by
  have hv : a.val = b.val := by
    unfold Char.toNat UInt32.toNat at h
    exact UInt32.eq_of_toBitVec_eq (BitVec.toNat_injective h)
  exact Char.eq_of_val_eq hv

theorem charListLe_total : ∀ a b : List Char, charListLe a b = true ∨ charListLe b a = true := by
  intro a
  induction a with
  | nil => intro b; left; rfl
  | cons x xs ih =>
    intro b
    cases b with
    | nil => right; rfl
    | cons y ys =>
      unfold charListLe
      rcases Nat.lt_trichotomy x.toNat y.toNat with hlt | heq | hgt
      · left; rw [if_pos hlt]
      · rw [heq]
        simp only [Nat.lt_irrefl, if_false]
        exact ih ys
      · right; rw [if_pos hgt]

theorem charListLe_trans : ∀ a b c : List Char, charListLe a b = true →
    charListLe b c = true → charListLe a c = true := by
  intro a
  induction a with
  | nil => intro b c _ _; rfl
  | cons x xs ih =>
    intro b c hab hbc
    cases b with
    | nil => exact absurd hab (by simp [charListLe])
    | cons y ys =>
      cases c with
      | nil => exact absurd hbc (by simp [charListLe])
      | cons z zs =>
        unfold charListLe at hab hbc ⊢
        by_cases hxy : x.toNat < y.toNat
        · by_cases hyz : y.toNat < z.toNat
          · rw [if_pos (by omega)]
          · rw [if_pos hxy] at hab
            by_cases hzy : z.toNat < y.toNat
            · rw [if_neg hyz, if_pos hzy] at hbc
              exact absurd hbc (by simp)
            · rw [if_pos (by omega)]
        · by_cases hyx : y.toNat < x.toNat
          · rw [if_neg hxy, if_pos hyx] at hab
            exact absurd hab (by simp)
          · -- x.toNat = y.toNat
            rw [if_neg hxy, if_neg hyx] at hab
            by_cases hyz : y.toNat < z.toNat
            · rw [if_pos (by omega)]
            · by_cases hzy : z.toNat < y.toNat
              · rw [if_neg hyz, if_pos hzy] at hbc
                exact absurd hbc (by simp)
              · rw [if_neg hyz, if_neg hzy] at hbc
                rw [if_neg (by omega), if_neg (by omega)]
                exact ih ys zs hab hbc

theorem charListLe_antisymm : ∀ a b : List Char, charListLe a b = true →
    charListLe b a = true → a = b := by
  intro a
  induction a with
  | nil =>
    intro b _ hba
    cases b with
    | nil => rfl
    | cons y ys => exact absurd hba (by simp [charListLe])
  | cons x xs ih =>
    intro b hab hba
    cases b with
    | nil => exact absurd hab (by simp [charListLe])
    | cons y ys =>
      unfold charListLe at hab hba
      by_cases hxy : x.toNat < y.toNat
      · rw [if_neg (by omega), if_pos hxy] at hba
        exact absurd hba (by simp)
      · by_cases hyx : y.toNat < x.toNat
        · rw [if_neg hxy, if_pos hyx] at hab
          exact absurd hab (by simp)
        · rw [if_neg hxy, if_neg hyx] at hab
          rw [if_neg hyx, if_neg hxy] at hba
          rw [char_toNat_inj (by omega : x.toNat = y.toNat), ih ys hab hba]

theorem strLe_total (a b : String) : strLe a b = true ∨ strLe b a = true :=
  charListLe_total a.data b.data

theorem strLe_trans {a b c : String} (hab : strLe a b = true) (hbc : strLe b c = true) :
    strLe a c = true :=
  charListLe_trans a.data b.data c.data hab hbc

theorem strLe_antisymm {a b : String} (hab : strLe a b = true) (hba : strLe b a = true) :
    a = b := by
  cases a
  cases b
  exact congrArg String.mk (charListLe_antisymm _ _ hab hba)

instance : IsTotal (String × JVal) (fun a b => strLe a.1 b.1 = true) :=
  ⟨fun a b => strLe_total a.1 b.1⟩

instance : IsTrans (String × JVal) (fun a b => strLe a.1 b.1 = true) :=
  ⟨fun _ _ _ => strLe_trans⟩

theorem sorted_entries_perm (l : List (String × JVal)) : (sorted_entries l).Perm l :=
  List.perm_insertionSort _ l

theorem sorted_entries_sorted (l : List (String × JVal)) :
    List.Sorted (fun a b : String × JVal => strLe a.1 b.1 = true) (sorted_entries l) :=
  List.sorted_insertionSort _ l

/-- A stable sort by key is canonical on key-permuted lists with distinct
keys: the two sorted results are equal. -/
theorem sort_canonical {l1 l2 : List (String × JVal)} (hp : l1.Perm l2)
    (hnd : (l1.map Prod.fst).Nodup) : sorted_entries l1 = sorted_entries l2 := by
  have hperm : (sorted_entries l1).Perm (sorted_entries l2) :=
    (sorted_entries_perm l1).trans (hp.trans (sorted_entries_perm l2).symm)
  have hnd2 : (l2.map Prod.fst).Nodup := ((hp.map Prod.fst).nodup_iff).mp hnd
  have hk1 : List.Pairwise (fun a b : String × JVal => a.1 ≠ b.1) (sorted_entries l1) := by
    have h1 : ((sorted_entries l1).map Prod.fst).Nodup :=
      (((sorted_entries_perm l1).map Prod.fst).nodup_iff).mpr hnd
    exact (List.pairwise_map).mp h1
  have hk2 : List.Pairwise (fun a b : String × JVal => a.1 ≠ b.1) (sorted_entries l2) := by
    have h2 : ((sorted_entries l2).map Prod.fst).Nodup :=
      (((sorted_entries_perm l2).map Prod.fst).nodup_iff).mpr hnd2
    exact (List.pairwise_map).mp h2
  haveI : IsAntisymm (String × JVal)
      (fun a b => strLe a.1 b.1 = true ∧ a.1 ≠ b.1) :=
    ⟨fun a b hab hba => absurd (strLe_antisymm hab.1 hba.1) hab.2⟩
  exact List.eq_of_perm_of_sorted hperm
    ((sorted_entries_sorted l1).and hk1) ((sorted_entries_sorted l2).and hk2)

mutual

/-- Every object in the document has pairwise-distinct keys. -/
def nodup_keys : JVal → Bool
  | .scalar _ => true
  | .obj es => decide ((es.map Prod.fst).Nodup) && nodup_keys_entries es
  | .arr l => nodup_keys_list l

def nodup_keys_entries : List (String × JVal) → Bool
  | [] => true
  | (_, v) :: rest => nodup_keys v && nodup_keys_entries rest

def nodup_keys_list : List JVal → Bool
  | [] => true
  | v :: rest => nodup_keys v && nodup_keys_list rest

end

mutual

/-- The key-order normal form of a document: every object's entry list is
stably sorted by key, recursively, with nothing dropped.  Two documents
are equal up to the ordering of keys within objects exactly when their
normal forms coincide (for documents without duplicate keys). -/
def norm_doc : JVal → JVal
  | .scalar c => .scalar c
  | .obj es => .obj (sorted_entries (norm_entries es))
  | .arr l => .arr (norm_list l)

def norm_entries : List (String × JVal) → List (String × JVal)
  | [] => []
  | (k, v) :: rest => (k, norm_doc v) :: norm_entries rest

def norm_list : List JVal → List JVal
  | [] => []
  | v :: rest => norm_doc v :: norm_list rest

end

theorem norm_entries_keys (es : List (String × JVal)) :
    (norm_entries es).map Prod.fst = es.map Prod.fst := by
  induction es with
  | nil => rfl
  | cons e rest ih =>
    obtain ⟨k, v⟩ := e
    unfold norm_entries
    simp [ih]

theorem norm_entries_eq_map (es : List (String × JVal)) :
    norm_entries es = es.map fun e => (e.1, norm_doc e.2) := by
  induction es with
  | nil => rfl
  | cons e rest ih =>
    obtain ⟨k, v⟩ := e
    unfold norm_entries
    simp [ih]

theorem pyDict_append_nodup {α β : Type} [DecidableEq α] :
    ∀ (es acc : List (α × β)), ((acc ++ es).map Prod.fst).Nodup →
      es.foldl (fun d e => pyDictInsert d e.1 e.2) acc = acc ++ es := by
  intro es
  induction es with
  | nil => intro acc _; simp
  | cons e rest ih =>
    intro acc hnd
    rw [List.foldl_cons]
    have hnotmem : e.1 ∉ acc.map Prod.fst := by
      rw [List.map_append] at hnd
      rcases List.nodup_append.mp hnd with ⟨-, -, hdisj⟩
      intro hmem
      exact hdisj hmem (by simp)
    rw [pyDictInsert_not_mem hnotmem]
    rw [ih (acc ++ [e]) (by simpa using hnd)]
    simp

theorem pyDict_of_nodup {α β : Type} [DecidableEq α] (es : List (α × β))
    (h : (es.map Prod.fst).Nodup) : pyDict es = es := by
  have := pyDict_append_nodup es [] (by simpa using h)
  simpa [pyDict] using this

/-- On documents without duplicate keys, decoding is exactly the key-order
normal form: the `dict` collapse in `_sorted_dict` drops nothing. -/
theorem decode_eq_norm : ∀ d : JVal, nodup_keys d = true → decode d = norm_doc d := by
  refine jsize.induct
    (fun d => nodup_keys d = true → decode d = norm_doc d)
    (fun l => nodup_keys_list l = true → decode_list l = norm_list l)
    (fun es => nodup_keys_entries es = true → decode_entries es = norm_entries es)
    ?_ ?_ ?_ ?_ ?_ ?_ ?_
  · intro s _
    rfl
  · intro es ihes hnd
    unfold nodup_keys at hnd
    simp only [Bool.and_eq_true, decide_eq_true_eq] at hnd
    unfold decode norm_doc
    rw [ihes hnd.2]
    congr 1
    apply pyDict_of_nodup
    have hkeys : (norm_entries es).map Prod.fst = es.map Prod.fst := norm_entries_keys es
    have hperm := (sorted_entries_perm (norm_entries es)).map Prod.fst
    rw [hkeys] at hperm
    exact hperm.nodup_iff.mpr hnd.1
  · intro l ihl hnd
    unfold nodup_keys at hnd
    unfold decode norm_doc
    rw [ihl hnd]
  · intro _
    rfl
  · intro k v rest ihv ihrest hnd
    unfold nodup_keys_entries at hnd
    simp only [Bool.and_eq_true] at hnd
    unfold decode_entries norm_entries
    rw [ihv hnd.1, ihrest hnd.2]
  · intro _
    rfl
  · intro v rest ihv ihrest hnd
    unfold nodup_keys_list at hnd
    simp only [Bool.and_eq_true] at hnd
    unfold decode_list norm_list
    rw [ihv hnd.1, ihrest hnd.2]

/-- C8: object entries are iterated in sorted key order, not source order,
so any two documents that are equal up to the ordering of keys within
objects (equivalently, for duplicate-free documents: with equal key-order
normal forms) convert to *identical* table stores — same table identities
in the same insertion order, same rows in the same order, same fields in
the same first-seen order (first conjunct).  In particular permuting the
entry list of a top-level object never changes the output (second
conjunct). -/
theorem convert_key_order_independent :
    (∀ (d1 d2 : JVal) (handlers : List Handler) (tn : Option String),
      nodup_keys d1 = true → nodup_keys d2 = true → norm_doc d1 = norm_doc d2 →
      convert d1 handlers tn = convert d2 handlers tn) ∧
    (∀ (es1 es2 : List (String × JVal)) (handlers : List Handler) (tn : Option String),
      es1.Perm es2 → nodup_keys (.obj es1) = true → nodup_keys (.obj es2) = true →
      convert (.obj es1) handlers tn = convert (.obj es2) handlers tn) := by
  have main : ∀ (d1 d2 : JVal) (handlers : List Handler) (tn : Option String),
      nodup_keys d1 = true → nodup_keys d2 = true → norm_doc d1 = norm_doc d2 →
      convert d1 handlers tn = convert d2 handlers tn := by
    intro d1 d2 handlers tn h1 h2 hnorm
    have hdec : decode d1 = decode d2 := by
      rw [decode_eq_norm d1 h1, decode_eq_norm d2 h2, hnorm]
    unfold convert
    rw [hdec]
  refine ⟨main, ?_⟩
  intro es1 es2 handlers tn hperm h1 h2
  apply main _ _ _ _ h1 h2
  unfold norm_doc
  congr 1
  apply sort_canonical
  · rw [norm_entries_eq_map, norm_entries_eq_map]
    exact hperm.map _
  · rw [norm_entries_keys]
    unfold nodup_keys at h1
    simp only [Bool.and_eq_true, decide_eq_true_eq] at h1
    exact h1.1

/-- Witness for C8: reordering the keys of both the root object and a
nested object leaves the converted output unchanged. -/
theorem convert_key_order_independent_witness :
    convert
      (.obj [("b", .scalar (.num 1)),
        ("a", .obj [("y", .scalar .null), ("x", .scalar .null)])])
      [⟨"table", [], some "item", none, false⟩, ⟨"column", ["*"], none, none, true⟩]
      none =
    convert
      (.obj [("a", .obj [("x", .scalar .null), ("y", .scalar .null)]),
        ("b", .scalar (.num 1))])
      [⟨"table", [], some "item", none, false⟩, ⟨"column", ["*"], none, none, true⟩]
      none :=
  convert_key_order_independent.1
    (.obj [("b", .scalar (.num 1)),
      ("a", .obj [("y", .scalar .null), ("x", .scalar .null)])])
    (.obj [("a", .obj [("x", .scalar .null), ("y", .scalar .null)]),
      ("b", .scalar (.num 1))])
    [⟨"table", [], some "item", none, false⟩, ⟨"column", ["*"], none, none, true⟩]
    none (by decide) (by decide) rfl

end JsonToMulticsv
